import Mathlib

/-!
# App cost calculator: the form controller of `src/App.jsx`

A shallow embedding of the React component `App`: its six `useState` cells
become the fields of `State`, the event handlers and the settled branches of
the two fetch effects become pure functions on `State`, and the event loop
(with the feature requests that are in flight) becomes the executable step
function `step` on `Sys`.

Modelling conventions.
* Hours and costs are JavaScript numbers: `JSNumber` holds `NaN`, the two
  infinities and the values of the finite binary64 doubles, and `+`, `*` round
  to nearest, ties to even, as IEEE-754 does.  The sign of zero is not kept
  (`-0 === 0`).
* The `hours` field of a feature is a number or a string (`NumOrStr`), read by
  `parseFloat`.
* Identifiers and category keys are integers (`Int`).  `NaN` as the result of
  `parseInt` on a string without a leading integer is `none`; `===` against
  it is never true.
* A string is truthy exactly when it is not `""`.
-/

namespace AppCost

/-! ## JavaScript numbers -/

/-- A JavaScript `number`: `NaN`, an infinity, or the value of a finite
double. -/
inductive JSNumber where
  | nan
  | inf (negative : Bool)
  | fin (q : ℚ)
  deriving DecidableEq

/-- Numeric literals such as `0` and `10`. -/
instance (n : Nat) : OfNat JSNumber n := ⟨.fin (n : ℚ)⟩

/-- The integer `n` as a number (exactly a double when `|n| ≤ 2^53`). -/
def JSNumber.ofInt (n : Int) : JSNumber := .fin (n : ℚ)

/-- Number of times `n` can be halved before it drops below 2. -/
def halvings : Nat → Nat → Nat
  | 0, _ => 0
  | fuel + 1, n => if 2 ≤ n then halvings fuel (n / 2) + 1 else 0

/-- Floor of the binary logarithm of a positive natural number. -/
def log2Floor (n : Nat) : Nat := halvings n n

/-- Exponent `e` of the binade of a non-zero rational: `2^e ≤ |q| < 2^(e+1)`. -/
def binade (q : ℚ) : Int :=
  let d : Int := (log2Floor q.num.natAbs : Int) - (log2Floor q.den : Int)
  if (2 : ℚ) ^ d ≤ |q| then d else d - 1

/-- Nearest integer, ties to the even one. -/
def roundHalfEven (q : ℚ) : Int :=
  let f := ⌊q⌋
  if q - f < 1 / 2 then f
  else if 1 / 2 < q - f then f + 1
  else if f % 2 = 0 then f else f + 1

/-- Rounding of an exact result to binary64: 53 significant bits, exponents
from -1022 (below that the spacing stays `2^(-1074)`), overflow to an
infinity from `2^1024` on. -/
def toDouble (q : ℚ) : JSNumber :=
  if q = 0 then .fin 0
  else
    let e := max (binade q) (-1022)
    let ulp : ℚ := 2 ^ (e - 52)
    let r : ℚ := roundHalfEven (q / ulp) * ulp
    if (2 : ℚ) ^ (1024 : Nat) ≤ |r| then .inf (decide (q < 0)) else .fin r

/-- The operator `+` on two numbers. -/
def jsAdd : JSNumber → JSNumber → JSNumber
  | .fin a, .fin b => toDouble (a + b)
  | .inf a, .inf b => if a = b then .inf a else .nan
  | .inf a, .fin _ => .inf a
  | .fin _, .inf b => .inf b
  | _, _ => .nan

/-- The operator `*` on two numbers. -/
def jsMul : JSNumber → JSNumber → JSNumber
  | .fin a, .fin b => toDouble (a * b)
  | .inf a, .inf b => .inf (xor a b)
  | .inf a, .fin b => if b = 0 then .nan else .inf (xor a (decide (b < 0)))
  | .fin a, .inf b => if a = 0 then .nan else .inf (xor (decide (a < 0)) b)
  | _, _ => .nan

instance : Add JSNumber := ⟨jsAdd⟩

instance : Mul JSNumber := ⟨jsMul⟩

/-- Sum of a list as JavaScript computes it: from `0`, adding from the left. -/
def jsSum (xs : List JSNumber) : JSNumber := xs.foldl (fun total x => total + x) 0

/-- A JSON value that is a number or a string. -/
inductive NumOrStr where
  | num (x : JSNumber)
  | str (s : String)
  deriving DecidableEq

/-! ## Data model -/

/-- Record of the `/categories/` endpoint. -/
structure Category where
  id : Int
  name : String
  deriving DecidableEq

/-- Record of the `/features/` endpoint. -/
structure Feature where
  id : Int
  name : String
  category : Int
  hours : NumOrStr
  deriving DecidableEq

/-- Object stored by `setCostDetails` in `handleSubmit`. -/
structure CostDetails where
  selectedFeatureDetails : List Feature
  totalHours : JSNumber
  totalCost : JSNumber
  deriving DecidableEq

/-- The six `useState` cells of `App` (lines 5-10). -/
structure State where
  categories : List Category
  features : List Feature
  selectedCategory : String
  selectedFeatures : List String
  error : String
  costDetails : Option CostDetails
  deriving DecidableEq

/-- Initial values passed to `useState`. -/
def State.init : State :=
  { categories := [], features := [], selectedCategory := "",
    selectedFeatures := [], error := "", costDetails := none }

/-- Line 12: cost per hour. -/
def PER_HOUR_COST : JSNumber := 10

/-! ## JavaScript built-ins used by the component -/

/-- White space skipped by `parseInt` (StrWhiteSpaceChar). -/
def isStrWhiteSpace (c : Char) : Bool :=
  c.toNat ∈ [0x09, 0x0A, 0x0B, 0x0C, 0x0D, 0x20, 0xA0, 0x1680, 0x2000, 0x2001,
    0x2002, 0x2003, 0x2004, 0x2005, 0x2006, 0x2007, 0x2008, 0x2009, 0x200A,
    0x2028, 0x2029, 0x202F, 0x205F, 0x3000, 0xFEFF]

/-- Value of a character as a digit of the given radix (10 or 16). -/
def digitOf (radix : Nat) (c : Char) : Option Nat :=
  let n := c.toNat
  let v : Option Nat :=
    if 48 ≤ n ∧ n ≤ 57 then some (n - 48)
    else if 97 ≤ n ∧ n ≤ 122 then some (n - 87)
    else if 65 ≤ n ∧ n ≤ 90 then some (n - 55)
    else none
  match v with
  | some d => if d < radix then some d else none
  | none => none

/-- Longest prefix of digits, read as a number; `none` when it is empty. -/
def readDigits (radix : Nat) : List Char → Option Nat → Option Nat
  | [], acc => acc
  | c :: cs, acc =>
    match digitOf radix c with
    | some d => readDigits radix cs (some (acc.getD 0 * radix + d))
    | none => acc

/-- JavaScript `parseInt(string)` with no radix argument: leading white space, an
optional sign, an optional `0x` prefix, then the longest run of digits.
`none` is `NaN`.  The digits are read exactly; JavaScript rounds the result to
a double, which differs only for values beyond `2^53`. -/
def parseInt (s : String) : Option Int :=
  let cs := s.toList.dropWhile isStrWhiteSpace
  let signed : Bool × List Char :=
    match cs with
    | '-' :: r => (true, r)
    | '+' :: r => (false, r)
    | _ => (false, cs)
  let based : Nat × List Char :=
    match signed.2 with
    | '0' :: 'x' :: r => (16, r)
    | '0' :: 'X' :: r => (16, r)
    | r => (10, r)
  match readDigits based.1 based.2 none with
  | some n => some (if signed.1 then - (n : Int) else (n : Int))
  | none => none

/-- Value of a run of decimal digits. -/
def digitsValue (ds : List Char) : Nat :=
  ds.foldl (fun acc c => acc * 10 + (c.toNat - 48)) 0

/-- Exponent part at the head of the list: `e` or `E`, an optional sign and at
least one digit; `0` when there is none. -/
def readExponent : List Char → Int
  | c :: t =>
    if c = 'e' ∨ c = 'E' then
      let signed : Bool × List Char :=
        match t with
        | '-' :: u => (true, u)
        | '+' :: u => (false, u)
        | _ => (false, t)
      let ds := (signed.2.span Char.isDigit).1
      if ds = [] then 0
      else if signed.1 then - (digitsValue ds : Int) else (digitsValue ds : Int)
    else 0
  | [] => 0

/-- Longest unsigned decimal literal at the head of the list (digits, an
optional fraction, an optional exponent), as an exact value; `none` when no
digit is found. -/
def readDecimal (cs : List Char) : Option ℚ :=
  let whole := cs.span Char.isDigit
  let frac : List Char × List Char :=
    match whole.2 with
    | '.' :: t => t.span Char.isDigit
    | r => ([], r)
  if whole.1 = [] ∧ frac.1 = [] then none
  else
    some ((digitsValue (whole.1 ++ frac.1) : ℚ) / 10 ^ frac.1.length
      * 10 ^ readExponent frac.2)

/-- JavaScript `parseFloat(feature.hours)`.  A number is returned as it is (its
string form reads back as the same number).  Of a string it reads, after
leading white space, an optional sign and then `Infinity` or the longest
decimal literal, rounded to a double; `NaN` when there is none. -/
def parseFloat : NumOrStr → JSNumber
  | .num x => x
  | .str s =>
    let cs := s.toList.dropWhile isStrWhiteSpace
    let signed : Bool × List Char :=
      match cs with
      | '-' :: r => (true, r)
      | '+' :: r => (false, r)
      | _ => (false, cs)
    if signed.2.take 8 = "Infinity".toList then .inf signed.1
    else
      match readDecimal signed.2 with
      | some q => toDouble (if signed.1 then -q else q)
      | none => .nan

/-- JavaScript `String(category.id)`: the `value` attribute of a rendered
`<option>`.  Decimal digits of the integer, as JavaScript prints every
identifier below `10^21`. -/
def optionValue (c : Category) : String := toString c.id

/-! ## Fetch effects -/

/-- Outcome of an awaited `axios.get`. -/
inductive Response (α : Type) where
  | ok (data : α)
  | fail
  deriving DecidableEq

/-- Lines 16-24: `fetchCategories` once the request has settled. -/
def fetchCategories (r : Response (List Category)) (s : State) : State :=
  match r with
  | .ok data => { s with categories := data }
  | .fail => { s with error := "Failed to fetch categories." }

/-- Lines 35-37: the filter callback, with the captured `selectedCategory`. -/
def inSelectedCategory (selectedCategory : String) (feature : Feature) : Bool :=
  some feature.category == parseInt selectedCategory

/-- Lines 31-46: `fetchFeatures` for the `selectedCategory` captured by the
effect closure.  With a truthy category the response `r` of the request is
consumed; with `""` no request is made and the list is cleared. -/
def fetchFeatures (selectedCategory : String) (r : Response (List Feature))
    (s : State) : State :=
  if selectedCategory ≠ "" then
    match r with
    | .ok data => { s with features := data.filter (inSelectedCategory selectedCategory) }
    | .fail => { s with error := "Failed to fetch features." }
  else
    { s with features := [] }

/-! ## Event handlers -/

/-- Lines 51-56. -/
def handleCategoryChange (category : String) (s : State) : State :=
  { s with selectedCategory := category, selectedFeatures := [], error := "",
           costDetails := none }

/-- Lines 59-63: the updater passed to `setSelectedFeatures`. -/
def toggle (feature : String) (prevFeatures : List String) : List String :=
  if prevFeatures.contains feature then
    prevFeatures.filter (fun f => f != feature)
  else
    prevFeatures ++ [feature]

/-- Lines 58-64. -/
def handleFeatureToggle (feature : String) (s : State) : State :=
  { s with selectedFeatures := toggle feature s.selectedFeatures }

/-- Lines 66-90. -/
def handleSubmit (s : State) : State :=
  if s.selectedCategory = "" then
    { s with error := "Please select a category" }
  else if s.selectedFeatures.length = 0 then
    { s with error := "Please select at least one feature" }
  else
    let selectedFeatureDetails :=
      s.features.filter (fun feature => s.selectedFeatures.contains feature.name)
    let totalHours :=
      selectedFeatureDetails.foldl (fun total feature => total + parseFloat feature.hours) 0
    let totalCost := totalHours * PER_HOUR_COST
    { s with error := "",
             costDetails := some { selectedFeatureDetails, totalHours, totalCost } }

/-- Line 184: the cost shown in a row of the breakdown, before `toFixed(2)`. -/
def rowCost (feature : Feature) : JSNumber := parseFloat feature.hours * PER_HOUR_COST

/-- Lines 180-186: the cost column of the rendered breakdown rows. -/
def rowCosts (s : State) : List JSNumber :=
  match s.costDetails with
  | some cd => cd.selectedFeatureDetails.map rowCost
  | none => []

/-! ## The event loop -/

/-- The component together with its requests in flight.  `featureRequests`
holds, oldest first, the `selectedCategory` captured by each feature request
that has not settled yet; nothing cancels a request. -/
structure Sys where
  mounted : Bool
  state : State
  categoryRequest : Bool
  featureRequests : List String
  deriving DecidableEq

/-- Before the first render. -/
def Sys.init : Sys :=
  { mounted := false, state := State.init, categoryRequest := false,
    featureRequests := [] }

/-- What can happen to the component. -/
inductive Event where
  | mount
  | categoriesSettled (r : Response (List Category))
  | categoryChange (category : String)
  | featuresSettled (i : Nat) (r : Response (List Feature))
  | featureToggle (feature : String)
  | submit
  deriving DecidableEq

/-- Lines 30-49: the effect on `[selectedCategory]`, run after a render in
which `selectedCategory` has the given value.  A truthy value issues a
request; `""` clears the list at once. -/
def runFeaturesEffect (selectedCategory : String) (y : Sys) : Sys :=
  if selectedCategory ≠ "" then
    { y with featureRequests := y.featureRequests ++ [selectedCategory] }
  else
    -- no request is made: `fetchFeatures` does not read its response here
    { y with state := fetchFeatures selectedCategory .fail y.state }

/-- One event.  `none` when the event cannot occur in this state:
* `mount` happens once;
* the category response settles the one request issued at mount;
* `<select>` fires `onChange` only for a value different from the current
  one, and its values are `""` and the rendered option values (lines 109-114);
* a feature response settles a request that is in flight;
* a checkbox exists only while a category is selected, one per loaded feature
  (lines 120-139). -/
def step (y : Sys) : Event → Option Sys
  | .mount =>
    if y.mounted then none
    else some (runFeaturesEffect y.state.selectedCategory
      { y with mounted := true, categoryRequest := true })
  | .categoriesSettled r =>
    if y.categoryRequest then
      some { y with categoryRequest := false, state := fetchCategories r y.state }
    else none
  | .categoryChange category =>
    if y.mounted ∧ category ≠ y.state.selectedCategory ∧
        (category = "" ∨ category ∈ y.state.categories.map optionValue) then
      some (runFeaturesEffect category
        { y with state := handleCategoryChange category y.state })
    else none
  | .featuresSettled i r =>
    match y.featureRequests.get? i with
    | some selectedCategory =>
      some { y with featureRequests := y.featureRequests.eraseIdx i,
                    state := fetchFeatures selectedCategory r y.state }
    | none => none
  | .featureToggle feature =>
    if y.mounted ∧ y.state.selectedCategory ≠ "" ∧
        feature ∈ y.state.features.map Feature.name then
      some { y with state := handleFeatureToggle feature y.state }
    else none
  | .submit =>
    if y.mounted then some { y with state := handleSubmit y.state } else none

/-- Run a sequence of events; `none` if one of them cannot occur. -/
def run : List Event → Sys → Option Sys
  | [], y => some y
  | e :: es, y => (step y e).bind (run es)

/-- States the component can be in. -/
def Reachable (y : Sys) : Prop := ∃ es, run es Sys.init = some y

/-! ## Sample data

The records of the worked example: two features of category 1, one of
category 2. -/

def exLogin : Feature := { id := 1, name := "Login", category := 1, hours := .num 5 }

def exChat : Feature := { id := 2, name := "Chat", category := 1, hours := .num 10 }

def exPush : Feature := { id := 3, name := "Push", category := 2, hours := .num 3 }

/-- Body of a `/features/` response: all features, whatever the category. -/
def exApi : List Feature := [exLogin, exChat, exPush]

/-- Body of a `/categories/` response. -/
def exCategories : List Category :=
  [{ id := 1, name := "Social" }, { id := 2, name := "Utility" }]

/-- Category 1 selected, its two features loaded and both ticked. -/
def exTicked : State :=
  { categories := exCategories, features := [exLogin, exChat],
    selectedCategory := "1", selectedFeatures := ["Login", "Chat"],
    error := "", costDetails := none }

/-- After mount, with the category request in flight. -/
def exMounted : Sys :=
  { mounted := true, state := State.init, categoryRequest := true, featureRequests := [] }

/-- Category 1 is loaded, category 2 is chosen, and the request for category
2 fails. -/
def exFailTrace : List Event :=
  [.mount, .categoriesSettled (.ok exCategories), .categoryChange "1",
   .featuresSettled 0 (.ok exApi), .categoryChange "2", .featuresSettled 0 .fail]

/-- Where `exFailTrace` ends: category 2 selected, the features of category 1
still loaded. -/
def exAfterFailure : Sys :=
  { mounted := true,
    state := { categories := exCategories, features := [exLogin, exChat],
               selectedCategory := "2", selectedFeatures := [],
               error := "Failed to fetch features.", costDetails := none },
    categoryRequest := false, featureRequests := [] }

/-- Category 1 then category 2 are chosen before any response; the response
for category 2 arrives first, the one for category 1 last. -/
def exStaleTrace : List Event :=
  [.mount, .categoriesSettled (.ok exCategories), .categoryChange "1",
   .categoryChange "2", .featuresSettled 1 (.ok exApi), .featuresSettled 0 (.ok exApi)]

/-- Where `exStaleTrace` ends: category 2 selected, the features of category
1 loaded, nothing in flight. -/
def exStale : Sys :=
  { mounted := true,
    state := { categories := exCategories, features := [exLogin, exChat],
               selectedCategory := "2", selectedFeatures := [],
               error := "", costDetails := none },
    categoryRequest := false, featureRequests := [] }

/-- Category 1 is loaded, category 2 is chosen, the checkbox "Login" still on
screen is ticked, then the response for category 2 arrives. -/
def exOrphanTrace : List Event :=
  [.mount, .categoriesSettled (.ok exCategories), .categoryChange "1",
   .featuresSettled 0 (.ok exApi), .categoryChange "2", .featureToggle "Login",
   .featuresSettled 0 (.ok exApi)]

/-- Where `exOrphanTrace` ends: "Login" is selected, only Push is loaded. -/
def exOrphan : Sys :=
  { mounted := true,
    state := { categories := exCategories, features := [exPush],
               selectedCategory := "2", selectedFeatures := ["Login"],
               error := "", costDetails := none },
    categoryRequest := false, featureRequests := [] }

/-! ## Invariant of the requests in flight -/

/-- What holds of the in-flight requests in every reachable state: the
category request exists only after mount, the category list is empty until
that request has succeeded, and every feature request was issued for a
truthy category. -/
def RequestsInv (y : Sys) : Prop :=
  (y.categoryRequest = true → y.mounted = true) ∧
  ((y.mounted = false ∨ y.categoryRequest = true) → y.state.categories = []) ∧
  (∀ c ∈ y.featureRequests, c ≠ "")

/-! # Theorems -/

/-! ## Lemmas on the selection -/

lemma mem_toggle (n m : String) (l : List String) :
    m ∈ toggle n l ↔ (if m = n then m ∉ l else m ∈ l) := by
  unfold toggle
  by_cases hn : n ∈ l
  · by_cases hm : m = n
    · subst hm; simp [hn]
    · simp [hn, hm, List.mem_filter]
  · by_cases hm : m = n
    · subst hm; simp [hn]
    · simp [hn, hm]

lemma toggle_toggle_mem (n m : String) (l : List String) :
    m ∈ toggle n (toggle n l) ↔ m ∈ l := by
  rw [mem_toggle, mem_toggle]
  by_cases hm : m = n <;> simp [hm]

lemma toggle_toggle_of_not_mem (n : String) (l : List String) (h : n ∉ l) :
    toggle n (toggle n l) = l := by
  have h1 : toggle n l = l ++ [n] := by simp [toggle, h]
  rw [h1]
  have h2 : ∀ x ∈ l, (x != n) = true := by
    intro x hx
    simp only [bne_iff_ne, ne_eq]
    rintro rfl
    exact h hx
  simp [toggle, List.filter_append, List.filter_eq_self.mpr h2]

lemma toggle_toggle_perm (n : String) (l : List String) (h : l.Nodup) :
    (toggle n (toggle n l)).Perm l := by
  by_cases hn : n ∈ l
  · have h1 : toggle n l = l.filter (fun f => f != n) := by simp [toggle, hn]
    have h2 : n ∉ l.filter (fun f => f != n) := by simp [List.mem_filter]
    have h3 : toggle n (toggle n l) = l.filter (fun f => f != n) ++ [n] := by
      rw [h1]; simp only [toggle]; simp
    rw [h3]
    have hnd : (l.filter (fun f => f != n) ++ [n]).Nodup := by
      rw [List.nodup_append]
      refine ⟨h.filter _, List.nodup_singleton n, ?_⟩
      intro a ha hb
      simp at hb
      subst hb
      exact h2 ha
    rw [List.perm_ext_iff_of_nodup hnd h]
    intro a
    by_cases ha : a = n
    · subst ha; simp [hn]
    · simp [List.mem_filter, ha]
  · rw [toggle_toggle_of_not_mem n l hn]

/-! ## Lemmas on the arithmetic of doubles -/

lemma roundHalfEven_intCast (z : ℤ) : roundHalfEven (z : ℚ) = z := by
  simp [roundHalfEven]

/-- A non-zero value that is a multiple of the spacing of its binade and lies
below `2^1024` is a double: rounding returns it. -/
lemma toDouble_of_grid (q : ℚ) (z : ℤ) (hq : q ≠ 0)
    (h : q / 2 ^ (max (binade q) (-1022) - 52) = z)
    (hlt : |q| < 2 ^ (1024 : Nat)) : toDouble q = .fin q := by
  have hu : (2 : ℚ) ^ (max (binade q) (-1022) - 52) ≠ 0 := zpow_ne_zero _ (by norm_num)
  have hr : ((roundHalfEven (q / 2 ^ (max (binade q) (-1022) - 52)) : ℤ) : ℚ)
      * 2 ^ (max (binade q) (-1022) - 52) = q := by
    rw [h, roundHalfEven_intCast, ← h, div_mul_cancel₀ _ hu]
  unfold toDouble
  simp only [hq, if_false]
  rw [hr]
  simp [not_le.mpr hlt]

lemma halvings_eq_log2 (fuel n : Nat) (h : n ≤ fuel) : halvings fuel n = Nat.log2 n := by
  induction fuel generalizing n with
  | zero =>
    have : n = 0 := by omega
    subst this
    simp [halvings, Nat.log2]
  | succ fuel ih =>
    rw [halvings, Nat.log2]
    by_cases h2 : 2 ≤ n
    · have : n / 2 ≤ fuel := by omega
      simp [h2, ih _ this]
    · simp [h2]

lemma log2Floor_eq_log2 (n : Nat) : log2Floor n = Nat.log2 n :=
  halvings_eq_log2 n n le_rfl

lemma binade_intCast (n : ℤ) (hn : n ≠ 0) : binade (n : ℚ) = (Nat.log2 n.natAbs : ℤ) := by
  have h0 : n.natAbs ≠ 0 := Int.natAbs_ne_zero.mpr hn
  have habs : |(n : ℚ)| = (n.natAbs : ℚ) := by
    rw [Nat.cast_natAbs, Int.cast_abs]
  have hle : (2 : ℚ) ^ ((Nat.log2 n.natAbs : ℤ)) ≤ |(n : ℚ)| := by
    rw [habs, zpow_natCast]
    exact_mod_cast Nat.log2_self_le h0
  unfold binade
  have h1 : Nat.log2 1 = 0 := by simp [Nat.log2]
  simp only [log2Floor_eq_log2, Rat.num_intCast, Rat.den_intCast, h1, Nat.cast_zero, sub_zero]
  rw [if_pos hle]

/-- Integers up to `2^53` in absolute value are doubles. -/
lemma toDouble_intCast (n : ℤ) (hn : n.natAbs ≤ 2 ^ 53) :
    toDouble (n : ℚ) = .fin (n : ℚ) := by
  by_cases h0 : n = 0
  · subst h0; simp [toDouble]
  have hq : (n : ℚ) ≠ 0 := by exact_mod_cast h0
  have hnat : n.natAbs ≠ 0 := Int.natAbs_ne_zero.mpr h0
  have habs : |(n : ℚ)| = (n.natAbs : ℚ) := by
    rw [Nat.cast_natAbs, Int.cast_abs]
  have hlt : |(n : ℚ)| < 2 ^ (1024 : Nat) := by
    rw [habs]
    have : (n.natAbs : ℚ) ≤ ((2 ^ 53 : ℕ) : ℚ) := by exact_mod_cast hn
    refine lt_of_le_of_lt this ?_
    norm_num
  have ha : Nat.log2 n.natAbs ≤ 53 := by
    have : Nat.log2 n.natAbs < 54 := (Nat.log2_lt hnat).mpr (lt_of_le_of_lt hn (by norm_num))
    omega
  have he : max (binade (n : ℚ)) (-1022) = (Nat.log2 n.natAbs : ℤ) := by
    rw [binade_intCast n h0]
    exact max_eq_left (by omega)
  rcases Nat.lt_or_ge (Nat.log2 n.natAbs) 53 with hlt53 | hge53
  · -- the spacing of doubles in this binade is at most 1
    refine toDouble_of_grid (n : ℚ) (n * 2 ^ (52 - Nat.log2 n.natAbs)) hq ?_ hlt
    rw [he]
    have hk : ((Nat.log2 n.natAbs : ℤ) - 52) = -((52 - Nat.log2 n.natAbs : ℕ) : ℤ) := by omega
    rw [hk, zpow_neg, zpow_natCast]
    push_cast
    field_simp
  · -- n is 2^53 or -2^53, the spacing is 2
    have h53 : Nat.log2 n.natAbs = 53 := by omega
    have hpow : 2 ^ 53 ≤ n.natAbs := by
      have := Nat.log2_self_le hnat
      rwa [h53] at this
    have habs53 : n.natAbs = 2 ^ 53 := le_antisymm hn hpow
    have hdvd : (2 : ℤ) ∣ n := by
      rw [← Int.natAbs_dvd_natAbs]
      simp [habs53]
      exact Dvd.intro_left (2 ^ 52) (by norm_num)
    obtain ⟨z, hz⟩ := hdvd
    refine toDouble_of_grid (n : ℚ) z hq ?_ hlt
    rw [he, h53, hz]
    norm_num

lemma ofNat_eq_ofInt (n : ℕ) : (OfNat.ofNat n : JSNumber) = JSNumber.ofInt (n : ℤ) := by
  show JSNumber.fin ((n : ℕ) : ℚ) = JSNumber.fin (((n : ℕ) : ℤ) : ℚ)
  simp

lemma ofInt_add_ofInt (a b : ℤ) (h : (a + b).natAbs ≤ 2 ^ 53) :
    JSNumber.ofInt a + JSNumber.ofInt b = JSNumber.ofInt (a + b) := by
  show toDouble ((a : ℚ) + (b : ℚ)) = JSNumber.fin ((a + b : ℤ) : ℚ)
  rw [← Int.cast_add]
  exact toDouble_intCast _ h

lemma ofInt_mul_ofInt (a b : ℤ) (h : (a * b).natAbs ≤ 2 ^ 53) :
    JSNumber.ofInt a * JSNumber.ofInt b = JSNumber.ofInt (a * b) := by
  show toDouble ((a : ℚ) * (b : ℚ)) = JSNumber.fin ((a * b : ℤ) : ℚ)
  rw [← Int.cast_mul]
  exact toDouble_intCast _ h

lemma foldl_add_ofInt (ns : List ℤ) (a : ℤ)
    (h : a.natAbs + (ns.map Int.natAbs).sum ≤ 2 ^ 53) :
    (ns.map JSNumber.ofInt).foldl (fun total x => total + x) (JSNumber.ofInt a)
      = JSNumber.ofInt (a + ns.sum) := by
  induction ns generalizing a with
  | nil => simp
  | cons n ns ih =>
    simp only [List.map_cons, List.sum_cons, List.foldl_cons] at h ⊢
    have hab : (a + n).natAbs ≤ a.natAbs + n.natAbs := Int.natAbs_add_le a n
    rw [ofInt_add_ofInt a n (by omega), ih (a + n) (by omega), add_assoc]

lemma natAbs_sum_le (ns : List ℤ) : ns.sum.natAbs ≤ (ns.map Int.natAbs).sum := by
  induction ns with
  | nil => simp
  | cons n ns ih =>
    simp only [List.sum_cons, List.map_cons]
    have := Int.natAbs_add_le n ns.sum
    omega

lemma natAbs_le_sum (ns : List ℤ) (n : ℤ) (hn : n ∈ ns) :
    n.natAbs ≤ (ns.map Int.natAbs).sum :=
  List.single_le_sum (fun _ _ => Nat.zero_le _) _ (List.mem_map_of_mem _ hn)

/-- Integer hours within range are added and multiplied exactly. -/
lemma breakdown_exact (fs : List Feature) (ns : List ℤ)
    (hmap : fs.map (fun f => parseFloat f.hours) = ns.map JSNumber.ofInt)
    (hb : 10 * (ns.map Int.natAbs).sum ≤ 2 ^ 53) :
    jsSum (fs.map (fun f => parseFloat f.hours)) = JSNumber.ofInt ns.sum ∧
    jsSum (fs.map (fun f => parseFloat f.hours)) * PER_HOUR_COST
      = JSNumber.ofInt (ns.sum * 10) ∧
    fs.map (fun f => parseFloat f.hours * PER_HOUR_COST)
      = ns.map (fun n => JSNumber.ofInt (n * 10)) := by
  have hten : PER_HOUR_COST = JSNumber.ofInt 10 := by
    show JSNumber.fin ((10 : ℕ) : ℚ) = JSNumber.fin ((10 : ℤ) : ℚ)
    simp
  have hsum : jsSum (fs.map (fun f => parseFloat f.hours)) = JSNumber.ofInt ns.sum := by
    have h0 : (0 : JSNumber) = JSNumber.ofInt 0 := by
      show JSNumber.fin ((0 : ℕ) : ℚ) = JSNumber.fin ((0 : ℤ) : ℚ)
      simp
    rw [hmap, jsSum, h0, foldl_add_ofInt ns 0 (by simp; omega), zero_add]
  have hS := natAbs_sum_le ns
  refine ⟨hsum, ?_, ?_⟩
  · rw [hsum, hten]
    exact ofInt_mul_ofInt _ _ (by rw [Int.natAbs_mul]; simp; omega)
  · have hcomp : fs.map (fun f => parseFloat f.hours * PER_HOUR_COST)
        = (fs.map (fun f => parseFloat f.hours)).map (fun x => x * PER_HOUR_COST) := by
      simp [List.map_map, Function.comp]
    rw [hcomp, hmap, List.map_map]
    refine List.map_congr_left fun n hn => ?_
    have := natAbs_le_sum ns n hn
    simp only [Function.comp, hten]
    exact ofInt_mul_ofInt _ _ (by rw [Int.natAbs_mul]; simp; omega)

/-- The computing branch of `handleSubmit`, field by field. -/
lemma handleSubmit_compute (s : State) (hc : s.selectedCategory ≠ "")
    (hf : s.selectedFeatures ≠ []) :
    handleSubmit s =
      { s with
        error := ""
        costDetails := some
          { selectedFeatureDetails :=
              s.features.filter (fun f => s.selectedFeatures.contains f.name)
            totalHours :=
              jsSum ((s.features.filter (fun f => s.selectedFeatures.contains f.name)).map
                (fun f => parseFloat f.hours))
            totalCost :=
              jsSum ((s.features.filter (fun f => s.selectedFeatures.contains f.name)).map
                (fun f => parseFloat f.hours)) * PER_HOUR_COST } } := by
  have hlen : s.selectedFeatures.length ≠ 0 := by
    simpa [List.length_eq_zero] using hf
  simp [handleSubmit, hc, hlen, jsSum, List.foldl_map]

/-- C1. When a category is selected and at least one feature name is selected,
`handleSubmit` clears the error and stores a breakdown whose features are the
loaded features filtered, in list order, to the selected names, whose
`totalHours` is the sum of their parsed hours (added as JavaScript numbers,
from the left) and whose `totalCost` is `totalHours` times
`PER_HOUR_COST = 10`; the rendered row costs are hours times 10.  When the
parsed hours are integers `ns` with `10 * Σ|n| ≤ 2^53` no rounding occurs:
`totalHours` is the integer sum, `totalCost` is ten times it.  With the loaded
features Login (5 h) and Chat (10 h) both selected this gives
`totalHours = 15`, `totalCost = 150` and row costs 50 and 100. -/
theorem handleSubmit_cost_breakdown (s : State) (hc : s.selectedCategory ≠ "")
    (hf : s.selectedFeatures ≠ []) :
    (handleSubmit s).error = "" ∧
    PER_HOUR_COST = 10 ∧
    ∃ cd, (handleSubmit s).costDetails = some cd ∧
      cd.selectedFeatureDetails
        = s.features.filter (fun f => decide (f.name ∈ s.selectedFeatures)) ∧
      cd.totalHours = jsSum (cd.selectedFeatureDetails.map (fun f => parseFloat f.hours)) ∧
      cd.totalCost = cd.totalHours * PER_HOUR_COST ∧
      rowCosts (handleSubmit s)
        = cd.selectedFeatureDetails.map (fun f => parseFloat f.hours * PER_HOUR_COST) ∧
      (∀ ns : List ℤ,
        cd.selectedFeatureDetails.map (fun f => parseFloat f.hours)
          = ns.map JSNumber.ofInt →
        10 * (ns.map Int.natAbs).sum ≤ 2 ^ 53 →
        cd.totalHours = JSNumber.ofInt ns.sum ∧
        cd.totalCost = JSNumber.ofInt (ns.sum * 10) ∧
        rowCosts (handleSubmit s) = ns.map (fun n => JSNumber.ofInt (n * 10))) ∧
      (s.features.map (fun f => (f.name, parseFloat f.hours)) = [("Login", 5), ("Chat", 10)] →
        "Login" ∈ s.selectedFeatures → "Chat" ∈ s.selectedFeatures →
        cd.totalHours = 15 ∧ cd.totalCost = 150 ∧
        rowCosts (handleSubmit s) = [50, 100]) := by
  rw [handleSubmit_compute s hc hf]
  have hrows : rowCosts
      { s with
        error := ""
        costDetails := some
          { selectedFeatureDetails :=
              s.features.filter (fun f => s.selectedFeatures.contains f.name)
            totalHours :=
              jsSum ((s.features.filter (fun f => s.selectedFeatures.contains f.name)).map
                (fun f => parseFloat f.hours))
            totalCost :=
              jsSum ((s.features.filter (fun f => s.selectedFeatures.contains f.name)).map
                (fun f => parseFloat f.hours)) * PER_HOUR_COST } }
      = (s.features.filter (fun f => s.selectedFeatures.contains f.name)).map
          (fun f => parseFloat f.hours * PER_HOUR_COST) := by
    simp [rowCosts, rowCost]
  refine ⟨rfl, rfl, _, rfl, ?_, rfl, rfl, hrows, ?_, ?_⟩
  · simp
  · intro ns hmap hb
    obtain ⟨h1, h2, h3⟩ := breakdown_exact _ ns hmap hb
    exact ⟨h1, h2, hrows.trans h3⟩
  · intro hfeat hl hch
    obtain ⟨f1, f2, hs, hn1, hh1, hn2, hh2⟩ :
        ∃ f1 f2, s.features = [f1, f2] ∧ f1.name = "Login" ∧ parseFloat f1.hours = 5 ∧
          f2.name = "Chat" ∧ parseFloat f2.hours = 10 := by
      rcases hs : s.features with _ | ⟨f1, _ | ⟨f2, _ | ⟨f3, t⟩⟩⟩ <;> rw [hs] at hfeat <;>
        simp at hfeat
      exact ⟨f1, f2, rfl, hfeat.1.1, hfeat.1.2, hfeat.2.1, hfeat.2.2⟩
    have hsel : s.features.filter (fun f => s.selectedFeatures.contains f.name) = [f1, f2] := by
      simp [hs, hn1, hn2, hl, hch]
    have hmap : (s.features.filter (fun f => s.selectedFeatures.contains f.name)).map
        (fun f => parseFloat f.hours) = [5, 10].map JSNumber.ofInt := by
      rw [hsel]
      simp only [List.map_cons, List.map_nil, hh1, hh2]
      rw [ofNat_eq_ofInt 5, ofNat_eq_ofInt 10]
      rfl
    obtain ⟨h1, h2, h3⟩ := breakdown_exact _ [5, 10] hmap (by norm_num)
    refine ⟨h1.trans ?_, h2.trans ?_, (hrows.trans h3).trans ?_⟩
    · rw [ofNat_eq_ofInt 15]; rfl
    · rw [ofNat_eq_ofInt 150]; rfl
    · simp only [List.map_cons, List.map_nil]
      rw [ofNat_eq_ofInt 50, ofNat_eq_ofInt 100]
      rfl

/-- Witness for C1: the worked example, Login (5 h) and Chat (10 h) ticked. -/
theorem handleSubmit_cost_breakdown_witness :
    exTicked.selectedCategory ≠ "" ∧ exTicked.selectedFeatures ≠ [] ∧
    (handleSubmit exTicked).error = "" ∧
    (handleSubmit exTicked).costDetails = some
      { selectedFeatureDetails := [exLogin, exChat], totalHours := 15, totalCost := 150 } ∧
    rowCosts (handleSubmit exTicked) = [50, 100] := by
  have hc : exTicked.selectedCategory ≠ "" := by decide
  have hf : exTicked.selectedFeatures ≠ [] := by decide
  obtain ⟨he, -, cd, hcd, hsel, -, -, -, -, hex⟩ := handleSubmit_cost_breakdown exTicked hc hf
  obtain ⟨h15, h150, hrows⟩ := hex (by decide) (by decide) (by decide)
  refine ⟨hc, hf, he, ?_, hrows⟩
  have hdet : cd.selectedFeatureDetails = [exLogin, exChat] := by
    rw [hsel]; decide
  rw [hcd]
  cases cd
  simp only at hdet h15 h150
  simp [hdet, h15, h150]

/-- C2. With no category selected, `handleSubmit` sets the error to
"Please select a category" and changes nothing else: the breakdown, the
selected names, the selected category and both loaded lists stay as they
were.  No assumption is made on the selected names, so this outcome comes
before the no-features check. -/
theorem handleSubmit_no_category (s : State) (h : s.selectedCategory = "") :
    (handleSubmit s).error = "Please select a category" ∧
    (handleSubmit s).costDetails = s.costDetails ∧
    (handleSubmit s).selectedFeatures = s.selectedFeatures ∧
    (handleSubmit s).selectedCategory = s.selectedCategory ∧
    (handleSubmit s).categories = s.categories ∧
    (handleSubmit s).features = s.features := by
  simp [handleSubmit, h]

/-- Witness for C2: names are ticked, yet the category error is reported. -/
theorem handleSubmit_no_category_witness :
    ({ exTicked with selectedCategory := "" } : State).selectedFeatures ≠ [] ∧
    (handleSubmit { exTicked with selectedCategory := "" }).error
      = "Please select a category" ∧
    (handleSubmit { exTicked with selectedCategory := "" }).costDetails = none :=
  ⟨by decide,
   (handleSubmit_no_category { exTicked with selectedCategory := "" } rfl).1,
   (handleSubmit_no_category { exTicked with selectedCategory := "" } rfl).2.1⟩

/-- C3. After `handleCategoryChange` with a non-empty category, `handleSubmit`
without a toggle in between reports "Please select at least one feature" and
leaves no cost breakdown; the same holds when the feature response (success
or failure) for that category arrives before the submit. -/
theorem submit_after_category_change (s : State) (c : String) (hc : c ≠ "") :
    (handleSubmit (handleCategoryChange c s)).error
      = "Please select at least one feature" ∧
    (handleSubmit (handleCategoryChange c s)).costDetails = none ∧
    ∀ r : Response (List Feature),
      (handleSubmit (fetchFeatures c r (handleCategoryChange c s))).error
        = "Please select at least one feature" ∧
      (handleSubmit (fetchFeatures c r (handleCategoryChange c s))).costDetails = none := by
  refine ⟨?_, ?_, ?_⟩
  · simp [handleSubmit, handleCategoryChange, hc]
  · simp [handleSubmit, handleCategoryChange, hc]
  · intro r
    cases r <;> simp [handleSubmit, handleCategoryChange, fetchFeatures, hc]

/-- Witness for C3: category "2" chosen while a breakdown for category 1 is
on screen. -/
theorem submit_after_category_change_witness :
    ("2" : String) ≠ "" ∧
    (handleSubmit (handleCategoryChange "2" (handleSubmit exTicked))).error
      = "Please select at least one feature" ∧
    (handleSubmit (handleCategoryChange "2" (handleSubmit exTicked))).costDetails = none :=
  ⟨by decide,
   (submit_after_category_change (handleSubmit exTicked) "2" (by decide)).1,
   (submit_after_category_change (handleSubmit exTicked) "2" (by decide)).2.1⟩

/-- C4. A successful feature load replaces the feature list by the returned
features whose `category` equals `parseInt` of the selected category, in
their original order, and changes no other field.  For the response
[Login (1), Chat (1), Push (2)] and category "1" the list becomes
[Login, Chat]. -/
theorem fetchFeatures_ok_filters (s : State) (c : String) (data : List Feature) :
    fetchFeatures c (.ok data) s
      = { s with features := data.filter (fun f => decide (some f.category = parseInt c)) } ∧
    (∀ f, f ∈ (fetchFeatures c (.ok data) s).features
      ↔ f ∈ data ∧ some f.category = parseInt c) ∧
    List.Sublist (fetchFeatures c (.ok data) s).features data ∧
    parseInt "1" = some 1 ∧
    (fetchFeatures "1" (.ok exApi) s).features = [exLogin, exChat] := by
  have key : fetchFeatures c (.ok data) s
      = { s with features := data.filter (fun f => decide (some f.category = parseInt c)) } := by
    by_cases hc : c = ""
    · subst hc
      have hp : parseInt "" = none := by decide
      simp [fetchFeatures, hp]
    · have hfun : inSelectedCategory c = fun f => decide (some f.category = parseInt c) := by
        funext f
        unfold inSelectedCategory
        by_cases h : some f.category = parseInt c
        · simp [h]
        · simp [h]
      simp [fetchFeatures, hc, hfun]
  refine ⟨key, ?_, ?_, by decide, ?_⟩
  · intro f
    rw [key]
    simp [List.mem_filter]
  · rw [key]
    exact List.filter_sublist _
  · show List.filter (inSelectedCategory "1") exApi = [exLogin, exChat]
    decide

/-- C5. `handleCategoryChange` stores the given category, empties the
selected names, clears the error and removes the breakdown, whatever they
held; it does not touch the loaded category and feature lists. -/
theorem handleCategoryChange_resets (s : State) (c : String) :
    (handleCategoryChange c s).selectedCategory = c ∧
    (handleCategoryChange c s).selectedFeatures = [] ∧
    (handleCategoryChange c s).error = "" ∧
    (handleCategoryChange c s).costDetails = none ∧
    (handleCategoryChange c s).categories = s.categories ∧
    (handleCategoryChange c s).features = s.features :=
  ⟨rfl, rfl, rfl, rfl, rfl, rfl⟩

/-- C6. `handleFeatureToggle n` flips the membership of `n` in the selected
names, keeps the membership of every other name, and changes no other field
of the state. -/
theorem handleFeatureToggle_flips (s : State) (n : String) :
    (n ∈ (handleFeatureToggle n s).selectedFeatures ↔ n ∉ s.selectedFeatures) ∧
    (∀ m, m ≠ n →
      (m ∈ (handleFeatureToggle n s).selectedFeatures ↔ m ∈ s.selectedFeatures)) ∧
    (handleFeatureToggle n s).categories = s.categories ∧
    (handleFeatureToggle n s).features = s.features ∧
    (handleFeatureToggle n s).selectedCategory = s.selectedCategory ∧
    (handleFeatureToggle n s).error = s.error ∧
    (handleFeatureToggle n s).costDetails = s.costDetails := by
  refine ⟨?_, ?_, rfl, rfl, rfl, rfl, rfl⟩
  · simp [handleFeatureToggle, mem_toggle]
  · intro m hm
    simp [handleFeatureToggle, mem_toggle, hm]

/-- Witness for C6: unticking "Login" keeps "Chat". -/
theorem handleFeatureToggle_flips_witness :
    ("Chat" : String) ≠ "Login" ∧
    ("Login" ∉ (handleFeatureToggle "Login" exTicked).selectedFeatures) ∧
    ("Chat" ∈ (handleFeatureToggle "Login" exTicked).selectedFeatures) :=
  ⟨by decide,
   fun h => ((handleFeatureToggle_flips exTicked "Login").1.mp h) (by decide),
   ((handleFeatureToggle_flips exTicked "Login").2.1 "Chat" (by decide)).mpr (by decide)⟩

/-- Function `handleSubmit` reads the selection only through membership. -/
lemma handleSubmit_selection_congr (s : State) (l : List String)
    (h : ∀ m, m ∈ l ↔ m ∈ s.selectedFeatures) :
    (handleSubmit { s with selectedFeatures := l }).error = (handleSubmit s).error ∧
    (handleSubmit { s with selectedFeatures := l }).costDetails
      = (handleSubmit s).costDetails := by
  have hnil : l = [] ↔ s.selectedFeatures = [] := by
    rw [List.eq_nil_iff_forall_not_mem, List.eq_nil_iff_forall_not_mem]
    exact forall_congr' fun m => not_congr (h m)
  have hfun : (fun feature : Feature => l.contains feature.name)
      = fun feature : Feature => s.selectedFeatures.contains feature.name := by
    funext f
    rw [Bool.eq_iff_iff]
    simpa using h f.name
  by_cases hc : s.selectedCategory = ""
  · simp [handleSubmit, hc]
  · by_cases hs : s.selectedFeatures = []
    · have hl : l = [] := hnil.mpr hs
      simp [handleSubmit, hc, hs, hl]
    · have hl : l ≠ [] := fun e => hs (hnil.mp e)
      simp only [handleSubmit, hc, List.length_eq_zero, hs, hl, if_false, hfun]
      exact ⟨trivial, trivial⟩

/-- C7. Toggling the same feature twice in a row gives back the original
selection: the same names are selected (the same array when the name was not
selected, a reordering of it otherwise, as the name returns at the end), no
other field changes, and a submit computes the same error and breakdown. -/
theorem handleFeatureToggle_twice (s : State) (n : String) :
    (∀ m, m ∈ (handleFeatureToggle n (handleFeatureToggle n s)).selectedFeatures
      ↔ m ∈ s.selectedFeatures) ∧
    (n ∉ s.selectedFeatures → handleFeatureToggle n (handleFeatureToggle n s) = s) ∧
    (s.selectedFeatures.Nodup →
      (handleFeatureToggle n (handleFeatureToggle n s)).selectedFeatures.Perm
        s.selectedFeatures) ∧
    handleFeatureToggle n (handleFeatureToggle n s)
      = { s with selectedFeatures := toggle n (toggle n s.selectedFeatures) } ∧
    (handleSubmit (handleFeatureToggle n (handleFeatureToggle n s))).error
      = (handleSubmit s).error ∧
    (handleSubmit (handleFeatureToggle n (handleFeatureToggle n s))).costDetails
      = (handleSubmit s).costDetails := by
  have hmem : ∀ m, m ∈ toggle n (toggle n s.selectedFeatures) ↔ m ∈ s.selectedFeatures :=
    fun m => toggle_toggle_mem n m s.selectedFeatures
  have hsub := handleSubmit_selection_congr s _ hmem
  refine ⟨hmem, ?_, ?_, rfl, hsub.1, hsub.2⟩
  · intro h
    simp only [handleFeatureToggle]
    rw [toggle_toggle_of_not_mem n _ h]
  · intro h
    exact toggle_toggle_perm n _ h

/-- Witness for C7: "Login" is unticked and ticked again; it moves behind
"Chat" in the array, the selected names are the same. -/
theorem handleFeatureToggle_twice_witness :
    exTicked.selectedFeatures.Nodup ∧
    (handleFeatureToggle "Login" (handleFeatureToggle "Login" exTicked)).selectedFeatures
      = ["Chat", "Login"] ∧
    (handleFeatureToggle "Login" (handleFeatureToggle "Login" exTicked)).selectedFeatures.Perm
      exTicked.selectedFeatures :=
  ⟨by decide, by decide,
   (handleFeatureToggle_twice exTicked "Login").2.2.1 (by decide)⟩

/-! ## Invariants of the event loop -/

lemma requestsInv_init : RequestsInv Sys.init := by
  simp [RequestsInv, Sys.init, State.init]

lemma runFeaturesEffect_fields (c : String) (y : Sys) :
    (runFeaturesEffect c y).mounted = y.mounted ∧
    (runFeaturesEffect c y).categoryRequest = y.categoryRequest ∧
    (runFeaturesEffect c y).state.categories = y.state.categories ∧
    (∀ x ∈ (runFeaturesEffect c y).featureRequests, x ∈ y.featureRequests ∨ (x = c ∧ c ≠ "")) := by
  by_cases hc : c = ""
  · simp [runFeaturesEffect, hc, fetchFeatures]
  · simp only [runFeaturesEffect, ne_eq, hc, not_false_eq_true, if_true, true_and]
    intro x hx
    rcases List.mem_append.mp hx with h | h
    · exact Or.inl h
    · exact Or.inr ⟨by simpa using h, trivial⟩

lemma requestsInv_step (y y' : Sys) (e : Event) (hy : RequestsInv y)
    (h : step y e = some y') : RequestsInv y' := by
  obtain ⟨h1, h2, h3⟩ := hy
  cases e with
  | mount =>
    simp only [step] at h
    split at h
    · exact absurd h (by simp)
    · rename_i hm
      simp only [Option.some.injEq] at h
      subst h
      obtain ⟨e1, e2, e3, e4⟩ := runFeaturesEffect_fields y.state.selectedCategory
        { y with mounted := true, categoryRequest := true }
      refine ⟨fun _ => by rw [e1], fun _ => ?_, fun c hc => ?_⟩
      · rw [e3]
        exact h2 (Or.inl (by simpa using hm))
      · rcases e4 c hc with h | ⟨rfl, h⟩
        · exact h3 c h
        · exact h
  | categoriesSettled r =>
    simp only [step] at h
    split at h
    · rename_i hr
      simp only [Option.some.injEq] at h
      subst h
      refine ⟨fun hh => by simp at hh, fun hh => ?_, h3⟩
      rcases hh with hh | hh
      · have := h1 hr
        simp only at hh
        rw [hh] at this
        exact absurd this (by simp)
      · simp at hh
    · exact absurd h (by simp)
  | categoryChange c =>
    simp only [step] at h
    split at h
    · simp only [Option.some.injEq] at h
      subst h
      obtain ⟨e1, e2, e3, e4⟩ := runFeaturesEffect_fields c
        { y with state := handleCategoryChange c y.state }
      refine ⟨fun hh => ?_, fun hh => ?_, fun x hx => ?_⟩
      · rw [e1]; rw [e2] at hh; exact h1 hh
      · rw [e3]; rw [e1, e2] at hh; exact h2 hh
      · rcases e4 x hx with h | ⟨rfl, h⟩
        · exact h3 x h
        · exact h
    · exact absurd h (by simp)
  | featuresSettled i r =>
    simp only [step] at h
    split at h
    · rename_i c hget
      simp only [Option.some.injEq] at h
      subst h
      have hc : c ≠ "" := h3 c (List.get?_mem hget)
      refine ⟨h1, fun hh => ?_, fun x hx => h3 x (List.mem_of_mem_eraseIdx hx)⟩
      have := h2 hh
      cases r <;> simpa [fetchFeatures, hc] using this
    · exact absurd h (by simp)
  | featureToggle n =>
    simp only [step] at h
    split at h
    · simp only [Option.some.injEq] at h
      subst h
      exact ⟨h1, h2, h3⟩
    · exact absurd h (by simp)
  | submit =>
    simp only [step] at h
    split at h
    · simp only [Option.some.injEq] at h
      subst h
      refine ⟨h1, fun hh => ?_, h3⟩
      have := h2 hh
      simp only [handleSubmit]
      split
      · exact this
      · split <;> exact this
    · exact absurd h (by simp)

lemma requestsInv_run (es : List Event) (y y' : Sys) (hy : RequestsInv y)
    (h : run es y = some y') : RequestsInv y' := by
  induction es generalizing y with
  | nil =>
    simp only [run, Option.some.injEq] at h
    exact h ▸ hy
  | cons e es ih =>
    simp only [run] at h
    cases hs : step y e with
    | none => rw [hs] at h; exact absurd h (by simp)
    | some y1 =>
      rw [hs] at h
      exact ih y1 (requestsInv_step y y1 e hy hs) h

lemma requestsInv_of_reachable (y : Sys) (h : Reachable y) : RequestsInv y := by
  obtain ⟨es, hes⟩ := h
  exact requestsInv_run es Sys.init y requestsInv_init hes

/-- C8. The event sequence `exOrphanTrace` (load category 1, choose category
2, tick the "Login" checkbox that is still rendered, receive the features of
category 2) is accepted by the component and ends in a state where the
selected name "Login" names no feature of the loaded list. -/
theorem selection_not_in_loaded_features :
    run exOrphanTrace Sys.init = some exOrphan ∧
    Reachable exOrphan ∧
    "Login" ∈ exOrphan.state.selectedFeatures ∧
    "Login" ∉ exOrphan.state.features.map Feature.name ∧
    (handleSubmit exOrphan.state).costDetails
      = some { selectedFeatureDetails := [], totalHours := 0, totalCost := 0 } := by
  have hrun : run exOrphanTrace Sys.init = some exOrphan := by decide
  refine ⟨hrun, ⟨_, hrun⟩, by decide, by decide, ?_⟩
  have hzero : (0 : JSNumber) * PER_HOUR_COST = 0 := by
    show toDouble (((0 : ℕ) : ℚ) * ((10 : ℕ) : ℚ)) = JSNumber.fin ((0 : ℕ) : ℚ)
    simp [toDouble]
  simp [handleSubmit, exOrphan, exPush, hzero]

/-- C9, as stated, fails: along `exFailTrace` the feature request for
category 2 fails while the features of category 1 are loaded; the banner is
set and the feature list is not empty. -/
theorem feature_fetch_failure_keeps_list :
    run exFailTrace Sys.init = some exAfterFailure ∧
    exAfterFailure.state.error = "Failed to fetch features." ∧
    exAfterFailure.state.features = [exLogin, exChat] ∧
    exAfterFailure.state.features ≠ [] := by
  decide

/-- C9 (amended). A failed fetch sets the error to its fixed text and changes
no other field of the state.  The category list is therefore still empty
after a failed category fetch in every reachable state, and the feature list
after a failed feature fetch is the list loaded before it. -/
theorem fetch_failure_sets_error_only :
    (∀ s, fetchCategories .fail s = { s with error := "Failed to fetch categories." }) ∧
    (∀ y y', Reachable y → step y (.categoriesSettled .fail) = some y' →
      y'.state = { y.state with error := "Failed to fetch categories." } ∧
      y'.state.categories = []) ∧
    (∀ y i y', Reachable y → step y (.featuresSettled i .fail) = some y' →
      y'.state = { y.state with error := "Failed to fetch features." } ∧
      y'.state.features = y.state.features) := by
  refine ⟨fun _ => rfl, ?_, ?_⟩
  · intro y y' hy h
    obtain ⟨-, h2, -⟩ := requestsInv_of_reachable y hy
    simp only [step] at h
    split at h
    · rename_i hr
      simp only [Option.some.injEq] at h
      subst h
      exact ⟨rfl, h2 (Or.inr hr)⟩
    · exact absurd h (by simp)
  · intro y i y' hy h
    obtain ⟨-, -, h3⟩ := requestsInv_of_reachable y hy
    simp only [step] at h
    split at h
    · rename_i c hget
      simp only [Option.some.injEq] at h
      subst h
      have hc : c ≠ "" := h3 c (List.get?_mem hget)
      simp [fetchFeatures, hc]
    · exact absurd h (by simp)

/-- Witness for C9 (amended): the category request fails right after mount. -/
theorem fetch_failure_sets_error_only_witness :
    Reachable exMounted ∧
    step exMounted (.categoriesSettled .fail)
      = some { exMounted with
          categoryRequest := false
          state := { State.init with error := "Failed to fetch categories." } } ∧
    ({ State.init with error := "Failed to fetch categories." } : State).categories = [] :=
  ⟨⟨[.mount], by decide⟩, by decide,
   (fetch_failure_sets_error_only.2.1 exMounted
      { exMounted with
          categoryRequest := false
          state := { State.init with error := "Failed to fetch categories." } }
      ⟨[.mount], by decide⟩ (by decide)).2⟩

/-- C10. With feature requests pending from the category change that issues
them until their response is delivered, in any order, a state is reachable in
which nothing is in flight and the loaded feature list holds a feature whose
category is not the selected one: along `exStaleTrace` the response for
category "1" is delivered after the response for the newer category "2" and
replaces the list [Push] by [Login, Chat]. -/
theorem stale_response_overwrites :
    Reachable exStale ∧
    run exStaleTrace Sys.init = some exStale ∧
    Option.map (fun y => (y.state.features, y.featureRequests))
      (run exStaleTrace.dropLast Sys.init) = some ([exPush], ["1"]) ∧
    exStale.featureRequests = [] ∧
    exStale.state.selectedCategory = "2" ∧
    ∃ f ∈ exStale.state.features, some f.category ≠ parseInt exStale.state.selectedCategory := by
  have hrun : run exStaleTrace Sys.init = some exStale := by decide
  exact ⟨⟨_, hrun⟩, hrun, by decide, rfl, rfl, exLogin, by decide, by decide⟩

/-! ## The number model on known values -/

/-- The double nearest to 0.1. -/
lemma toDouble_tenth :
    toDouble (1 / 10) = .fin (3602879701896397 / 36028797018963968) := by
  decide!

/-- In doubles `0.1 + 0.2` is `0.30000000000000004`, not the double `0.3`. -/
lemma tenth_add_fifth :
    toDouble (1 / 10) + toDouble (2 / 10) = .fin (1351079888211149 / 4503599627370496) ∧
    toDouble (3 / 10) = .fin (5404319552844595 / 18014398509481984) ∧
    parseFloat (.str "0.30000000000000004") = .fin (1351079888211149 / 4503599627370496) := by
  decide!

/-- Above `2^53` a unit is lost: `2^53 + 1` is `2^53`. -/
lemma two_pow_53_add_one :
    JSNumber.ofInt (2 ^ 53) + 1 = JSNumber.ofInt (2 ^ 53) := by
  decide!

/-- Hours given as text are read by their leading decimal literal; text without
one is `NaN`. -/
lemma parseFloat_str_values :
    parseFloat (.str "10") = 10 ∧
    parseFloat (.str " 7.5 hours") = .fin (15 / 2) ∧
    parseFloat (.str "abc") = .nan ∧
    parseFloat (.str "") = .nan := by
  decide!

/-- A `NaN` among the summands makes the sum `NaN`. -/
lemma jsSum_nan (xs : List JSNumber) (h : JSNumber.nan ∈ xs) : jsSum xs = .nan := by
  have hnan : ∀ ys : List JSNumber,
      ys.foldl (fun total x => total + x) JSNumber.nan = JSNumber.nan := by
    intro ys
    induction ys with
    | nil => rfl
    | cons y ys ih =>
      simp only [List.foldl_cons]
      have : JSNumber.nan + y = JSNumber.nan := by cases y <;> rfl
      rw [this, ih]
  have key : ∀ (ys : List JSNumber) (a : JSNumber), JSNumber.nan ∈ ys →
      ys.foldl (fun total x => total + x) a = JSNumber.nan := by
    intro ys
    induction ys with
    | nil => intro a h; simp at h
    | cons y ys ih =>
      intro a h
      simp only [List.foldl_cons]
      rcases List.mem_cons.mp h with h | h
      · subst h
        have : a + JSNumber.nan = JSNumber.nan := by cases a <;> rfl
        rw [this, hnan]
      · exact ih _ h
  exact key xs 0 h

end AppCost
